import Mathlib

/-!
dot-to-dns53, a DNS-over-TLS to UDP relay

A shallow embedding of `src/main.go` (package `main`): the accept loop of
`Server.ServeTLS`, the per-connection read loop it starts for each accepted
connection, and the per-query dispatch that loop starts for each decoded frame.

Conventions of the embedding.

* A goroutine is a function from the values it captures and the behaviour of the
  outside world (what the sockets deliver) to the list of observable actions it
  performs, in program order, together with the way it ends (`Outcome`).
* `go f()` is recorded as an action of the spawning goroutine that carries the
  values captured by `f`; the spawned goroutine is the function applied to them.
* A Go `panic` that no goroutine recovers ends the whole process; the source has no
  `recover`, so `Outcome.panicked` is a process-wide crash.
* Machine integers are natural numbers with explicit reductions modulo `2 ^ w`.
-/

namespace DotToDns53

/-! ## Constants and basic types -/

/-- A Go `byte`. -/
abbrev Byte := Fin 256

/-- A `time.Time` reading, in nanoseconds. -/
abbrev Time := Int

/-- A `time.Duration`, in nanoseconds. -/
abbrev Duration := Int

/-- The method `time.Time.Add`, on nanosecond counts: the instant `d` after `t`. -/
def timeAdd (t : Time) (d : Duration) : Time := t + d

/-- The constant `maxDNSMessageLength` (main.go:16). -/
def maxDNSMessageLength : Nat := 512

/-- The constant `timeoutDuration`, `5 * time.Second` (main.go:15). -/
def timeoutDuration : Duration := 5 * 1000000000

/-- The constant `dnsServerAddr` (main.go:17). -/
def dnsServerAddr : String := "8.8.8.8:53"

/-- Errors returned by the I/O calls of the program. -/
inductive IOError where
  | EOF
  | ErrUnexpectedEOF
  | deadlineExceeded
  | closed
  | other (code : Nat)
  deriving DecidableEq, Repr

/-- Values a goroutine of the program can panic with. -/
inductive PanicVal where
  /-- Explicit `panic(err)`. -/
  | err (e : IOError)
  /-- Runtime error "slice bounds out of range [:high] with capacity cap". -/
  | sliceBounds (high cap : Nat)
  deriving DecidableEq, Repr

/-- How a goroutine ends. -/
inductive Outcome where
  /-- The goroutine function returned. -/
  | returned
  /-- The goroutine panicked; nothing recovers, so the process dies. -/
  | panicked (p : PanicVal)
  deriving DecidableEq, Repr

/-- An unrecovered panic ends every goroutine of the process. -/
def Outcome.crashesProcess : Outcome → Bool
  | .returned => false
  | .panicked _ => true

/-! ## Big-endian 16-bit codec (`encoding/binary`) -/

/-- The conversion `uint16(n)` of an `int`. -/
def toUint16 (n : Nat) : Nat := n % 65536

/-- The conversion `byte(v)` of a `uint16`. -/
def toByte (v : Nat) : Byte := ⟨v % 256, Nat.mod_lt _ (by decide)⟩

/-- `binary.BigEndian.Uint16(b)` for `b = [b0, b1]`:
`uint16(b[1]) | uint16(b[0])<<8`. -/
def Uint16 (b : Byte × Byte) : Nat := (b.2.val ||| (b.1.val <<< 8)) % 65536

/-- `binary.BigEndian.PutUint16(b, v)`: `b[0] = byte(v >> 8); b[1] = byte(v)`. -/
def PutUint16 (v : Nat) : Byte × Byte := (toByte (v >>> 8), toByte v)

/-- The slice `lengthRaw[:]` of a `[2]byte`. -/
def rawSlice (b : Byte × Byte) : List Byte := [b.1, b.2]

/-! ## Slices of the fixed buffer -/

/-- The zero value of `var buf [maxDNSMessageLength]byte`. -/
def zeroBuf : List Byte := List.replicate maxDNSMessageLength 0

/-- The slice expression `a[:high]` on an array: a run-time panic when `high`
exceeds the array length, the first `high` elements otherwise. -/
def sliceTo (a : List Byte) (high : Nat) : Except PanicVal (List Byte) :=
  if high ≤ a.length then .ok (a.take high) else .error (.sliceBounds high a.length)

/-- The effect on `buf` of storing `bs` through a slice `buf[:k]`, `bs.length ≤ k`:
the first `bs.length` bytes are overwritten, the others kept. -/
def storeFront (buf bs : List Byte) : List Byte := bs ++ buf.drop bs.length

/-! ## The client connection as a byte stream -/

/-- What the client side of a connection delivers to the reads of the session: the
bytes `data` arrive, and the first read past them fails with `term` (end of stream,
deadline exceeded, ...). -/
structure ConnStream where
  data : List Byte
  term : IOError
  deriving DecidableEq, Repr

/-- Result of `io.ReadFull`. -/
inductive ReadResult where
  | ok (bs : List Byte)
  | fail (e : IOError)
  deriving DecidableEq, Repr

/-- `io.ReadFull(conn, b)` with `len(b) = n` (`io.ReadAtLeast` with `min = n`): it
reads until `n` bytes are there or a read fails. With enough data the error is
dropped; with some but not enough data an `EOF` becomes `ErrUnexpectedEOF`; a
request for zero bytes performs no read and succeeds. -/
def readFull (c : ConnStream) (n : Nat) : ReadResult × ConnStream :=
  if n ≤ c.data.length then
    (.ok (c.data.take n), { c with data := c.data.drop n })
  else
    (.fail (if c.data ≠ [] ∧ c.term = .EOF then .ErrUnexpectedEOF else c.term),
      { c with data := [] })

/-! ## One frame read (main.go:93-110) -/

/-- The variables of one loop iteration that the dispatch closure captures: the
iteration's own `lengthRaw`, `buf` and `length`. -/
structure Captured where
  lengthRaw : Byte × Byte
  buf : List Byte
  length : Nat
  deriving DecidableEq, Repr

/-- The query of a dispatch: the bytes `buf[:length]` it sends upstream. -/
def Captured.query (cap : Captured) : List Byte := cap.buf.take cap.length

/-- Result of the frame-reading part of one iteration, with the stream left unread. -/
inductive FrameRead where
  /-- Both reads succeeded. -/
  | ok (cap : Captured) (rest : ConnStream)
  /-- "error reading the length:" and `return`. -/
  | lengthErr (e : IOError) (rest : ConnStream)
  /-- "error reading the buf:" and `return`, after a length `length` was decoded. -/
  | bufErr (length : Nat) (e : IOError) (rest : ConnStream)
  /-- The slice expression `buf[:length]` panicked. -/
  | slicePanic (p : PanicVal) (rest : ConnStream)
  deriving DecidableEq, Repr

/-- Lines 93-110 of `ServeTLS`: fresh `lengthRaw` and `buf`, `io.ReadFull` of the two
length bytes, `binary.BigEndian.Uint16`, then `io.ReadFull(conn, buf[:length])`. The
slice expression is evaluated before `io.ReadFull` is called. -/
def readFrame (c : ConnStream) : FrameRead :=
  match readFull c 2 with
  | (.fail e, c1) => .lengthErr e c1
  | (.ok raw, c1) =>
    let lengthRaw : Byte × Byte := (raw.getD 0 0, raw.getD 1 0)
    let length := Uint16 lengthRaw
    match sliceTo zeroBuf length with
    | .error p => .slicePanic p c1
    | .ok _ =>
      match readFull c1 length with
      | (.fail e, c2) => .bufErr length e c2
      | (.ok bs, c2) => .ok ⟨lengthRaw, storeFront zeroBuf bs, length⟩ c2

/-! ## The connection session (main.go:83-141) -/

/-- The fields of `tls.Config` the program reads or writes. -/
structure TLSConfig where
  CurvePreferences : List Nat
  MinVersion : Nat
  PreferServerCipherSuites : Bool
  /-- The certificates, each identified by a number. -/
  Certificates : List Nat
  /-- The callback, `none` for `nil`. -/
  GetCertificate : Option Nat
  deriving DecidableEq, Repr

/-- The struct `Server` (main.go:22-27); `none` stands for a `nil` context or a
`nil` configuration pointer. -/
structure Server where
  ctx : Option Nat
  addr : String
  maxIdle : Duration
  tlsConfig : Option TLSConfig
  deriving DecidableEq, Repr

/-- The function `NewServer` (main.go:29-36). -/
def NewServer (ctx : Option Nat) (addr : String) (maxIdle : Duration)
    (tlsConfig : Option TLSConfig) : Server :=
  { ctx := ctx, addr := addr, maxIdle := maxIdle, tlsConfig := tlsConfig }

/-- What the session observes besides the byte stream: the clock reading
`time.Now()` of the `i`-th loop iteration and the result of the `conn.SetDeadline`
call made there (`none` for a `nil` error). -/
structure ConnEnv where
  now : Nat → Time
  setDeadline : Nat → Option IOError

/-- Observable actions of a session goroutine. -/
inductive Event where
  /-- The call `conn.SetDeadline(now.Add(d))`: the deadline asked for is
  `timeAdd now d`. -/
  | setDeadline (now : Time) (d : Duration)
  /-- The call `io.ReadFull(conn, lengthRaw[:])`. -/
  | readLength
  /-- The call `io.ReadFull(conn, buf[:n])`. -/
  | readBuf (n : Nat)
  /-- The line `log.Println("error reading the length:", err)`. -/
  | logLengthErr (e : IOError)
  /-- The line `fmt.Println("error reading the buf:", err)`. -/
  | printBufErr (e : IOError)
  /-- The statement `go func() { ... }()` starting a dispatch with its captures. -/
  | spawn (cap : Captured)
  /-- The deferred `conn.Close()`. -/
  | close
  deriving DecidableEq, Repr

/-- Result of one iteration of the read loop. -/
inductive Step where
  /-- The loop goes on to its next iteration. -/
  | next (evs : List Event) (rest : ConnStream)
  /-- The goroutine function is left, by `return` or by a panic. -/
  | done (evs : List Event) (o : Outcome) (rest : ConnStream)

/-- Lines 86-91: the deadline refresh at the top of the loop body. The second
component is the panic raised when `SetDeadline` returns an error. -/
def refreshDeadline (s : Server) (env : ConnEnv) (i : Nat) : List Event × Option PanicVal :=
  if s.maxIdle > 0 then
    match env.setDeadline i with
    | some e => ([.setDeadline (env.now i) s.maxIdle], some (.err e))
    | none => ([.setDeadline (env.now i) s.maxIdle], none)
  else ([], none)

/-- One iteration of the read loop (main.go:85-140), the `i`-th of its session. -/
def iteration (s : Server) (env : ConnEnv) (i : Nat) (c : ConnStream) : Step :=
  match refreshDeadline s env i with
  | (evs, some p) => .done evs (.panicked p) c
  | (evs, none) =>
    match readFrame c with
    | .lengthErr e rest => .done (evs ++ [.readLength, .logLengthErr e]) .returned rest
    | .slicePanic p rest => .done (evs ++ [.readLength]) (.panicked p) rest
    | .bufErr n e rest => .done (evs ++ [.readLength, .readBuf n, .printBufErr e]) .returned rest
    | .ok cap rest => .next (evs ++ [.readLength, .readBuf cap.length, .spawn cap]) rest

/-- A finished run of a session goroutine. -/
structure Run where
  events : List Event
  outcome : Outcome
  rest : ConnStream
  deriving DecidableEq, Repr

/-- The `for` loop of the session, from iteration `i` on, with a bound on the number
of iterations; `none` when the bound is reached. -/
def sessionLoop (s : Server) (env : ConnEnv) : Nat → Nat → ConnStream → Option Run
  | 0, _, _ => none
  | fuel + 1, i, c =>
    match iteration s env i c with
    | .done evs o rest => some ⟨evs, o, rest⟩
    | .next evs rest =>
      (sessionLoop s env fuel (i + 1) rest).map fun r => { r with events := evs ++ r.events }

/-- The session goroutine from its `i`-th iteration on: the loop, then the deferred
`conn.Close()`, which runs on `return` and on a panic alike. Every iteration that
goes on has consumed the two length bytes, so `data.length + 1` iterations are
enough. -/
def sessionFrom (s : Server) (env : ConnEnv) (i : Nat) (c : ConnStream) : Option Run :=
  (sessionLoop s env (c.data.length + 1) i c).map fun r =>
    { r with events := r.events ++ [.close] }

/-- The session goroutine started for an accepted connection (main.go:83-141). -/
def session (s : Server) (env : ConnEnv) (c : ConnStream) : Option Run :=
  sessionFrom s env 0 c

/-- The captures of the dispatches a run started, in the order they were started. -/
def spawned : List Event → List Captured
  | [] => []
  | .spawn cap :: evs => cap :: spawned evs
  | _ :: evs => spawned evs

/-! ## The query dispatch (main.go:112-139) -/

/-- Result of `dnsConn.Read(buf[:])`: a datagram arrived, or the read failed (for
instance because the read deadline passed). -/
inductive UdpRead where
  | datagram (d : List Byte)
  | fail (e : IOError)
  deriving DecidableEq, Repr

/-- What the outside world answers to one dispatch: the results of `net.Dial`,
`dnsConn.Write`, `dnsConn.Read` and `conn.Write` (`none` for a `nil` error), and the
clock reading used for the read deadline. -/
structure Upstream where
  dial : Option IOError
  write : Option IOError
  now : Time
  read : UdpRead
  clientWrite : Option IOError
  deriving DecidableEq, Repr

/-- Observable actions of a dispatch goroutine. -/
inductive DEvent where
  /-- The call `net.Dial(network, addr)`. -/
  | dial (network addr : String)
  /-- The call `dnsConn.Write(bs)`. -/
  | upstreamWrite (bs : List Byte)
  /-- The call `dnsConn.SetReadDeadline(now.Add(d))`. -/
  | setReadDeadline (now : Time) (d : Duration)
  /-- The call `dnsConn.Read(b)` with `len(b) = n`. -/
  | upstreamRead (n : Nat)
  /-- The call `conn.Write(bs)` on the client connection. -/
  | clientWrite (bs : List Byte)
  /-- The line `fmt.Println("error writing the buf to DNS:", err)`. -/
  | printWriteDNSErr (e : IOError)
  /-- The line `fmt.Println("error reading the buf from the DNS:", err)`. -/
  | printReadDNSErr (e : IOError)
  /-- The line `fmt.Println("error writing the buf:", err)`. -/
  | printWriteErr (e : IOError)
  /-- The deferred `dnsConn.Close()`. -/
  | upstreamClose
  deriving DecidableEq, Repr

/-- Lines 132-134: the argument of `conn.Write`, `append(lengthRaw[:], r...)` after
`binary.BigEndian.PutUint16(lengthRaw[:], uint16(n))`, for `r = buf[:n]`. -/
def responseFrame (n : Nat) (r : List Byte) : List Byte :=
  rawSlice (PutUint16 (toUint16 n)) ++ r

/-- Lines 119-138: the dispatch after a successful dial, without the deferred close. -/
def exchange (cap : Captured) (up : Upstream) : List DEvent × Outcome :=
  match sliceTo cap.buf cap.length with
  | .error p => ([], .panicked p)
  | .ok q =>
    match up.write with
    | some e => ([.upstreamWrite q, .printWriteDNSErr e], .returned)
    | none =>
      let pre : List DEvent :=
        [.upstreamWrite q, .setReadDeadline up.now timeoutDuration,
          .upstreamRead cap.buf.length]
      match up.read with
      | .fail e => (pre ++ [.printReadDNSErr e], .returned)
      | .datagram d =>
        let n := min d.length cap.buf.length
        let buf := storeFront cap.buf (d.take n)
        match sliceTo buf n with
        | .error p => (pre, .panicked p)
        | .ok r =>
          let out := responseFrame n r
          match up.clientWrite with
          | some e => (pre ++ [.clientWrite out, .printWriteErr e], .returned)
          | none => (pre ++ [.clientWrite out], .returned)

/-- The dispatch goroutine (main.go:112-139) for the captures `cap`: dial (panic on
failure), deferred close of the association, then the exchange. -/
def dispatch (cap : Captured) (up : Upstream) : List DEvent × Outcome :=
  match up.dial with
  | some e => ([.dial "udp" dnsServerAddr], .panicked (.err e))
  | none =>
    let r := exchange cap up
    (.dial "udp" dnsServerAddr :: r.1 ++ [.upstreamClose], r.2)

/-- The byte strings passed to `conn.Write` by a dispatch, in order. -/
def clientWrites : List DEvent → List (List Byte)
  | [] => []
  | .clientWrite bs :: evs => bs :: clientWrites evs
  | _ :: evs => clientWrites evs

/-- The byte strings passed to `dnsConn.Write` by a dispatch, in order. -/
def upstreamWrites : List DEvent → List (List Byte)
  | [] => []
  | .upstreamWrite bs :: evs => bs :: upstreamWrites evs
  | _ :: evs => upstreamWrites evs

/-! ## Listener and accept loop (main.go:38-81) -/

/-- The constant `tls.CurveP256`. -/
def CurveP256 : Nat := 23

/-- The constant `tls.VersionTLS13`. -/
def VersionTLS13 : Nat := 0x0304

/-- Result of `tls.LoadX509KeyPair`. -/
inductive LoadResult where
  | ok (cert : Nat)
  | fail (e : IOError)
  deriving DecidableEq, Repr

/-- Result of one `tlsListener.Accept()`: a connection, identified by a number, or an
error (for instance after the listener was closed). -/
inductive AcceptResult where
  | conn (id : Nat)
  | fail (e : IOError)
  deriving DecidableEq, Repr

/-- Observable actions of the goroutine running `ListenAndServeTLS`. -/
inductive ServeEvent where
  /-- The call `net.Listen("tcp", addr)`. -/
  | listen (addr : String)
  /-- The statement starting the goroutine that waits for `ctx.Done()` and closes
  the listener. -/
  | spawnObserver
  /-- The call `tls.NewListener(l, cfg)`. -/
  | newListener (cfg : TLSConfig)
  /-- The call `tlsListener.Accept()`. -/
  | accept
  /-- The statement starting the session goroutine of connection `id`. -/
  | spawnSession (id : Nat)
  deriving DecidableEq, Repr

/-- How a call of `ServeTLS` or `ListenAndServeTLS` ends. -/
inductive ServeOutcome where
  /-- The call returned the error `e` to its caller. -/
  | returned (e : IOError)
  /-- The call panicked. -/
  | panicked (p : PanicVal)
  /-- The call is blocked in `Accept` at the end of the observed run. -/
  | blocked
  deriving DecidableEq, Repr

/-- Lines 59-73 of `ServeTLS`: the configuration handed to `tls.NewListener`, or the
panic raised when the key pair cannot be loaded. -/
def tlsSetup (s : Server) (load : String → String → LoadResult)
    (certFile keyFile : String) : Except PanicVal TLSConfig :=
  let cfg : TLSConfig :=
    match s.tlsConfig with
    | none =>
      { CurvePreferences := [CurveP256], MinVersion := VersionTLS13,
        PreferServerCipherSuites := true, Certificates := [], GetCertificate := none }
    | some c => c
  if cfg.Certificates.length = 0 ∧ cfg.GetCertificate = none then
    match load certFile keyFile with
    | .fail e => .error (.err e)
    | .ok cert => .ok { cfg with Certificates := [cert] }
  else .ok cfg

/-- Lines 77-142 of `ServeTLS`: the accept loop over the results `Accept` gives in
the observed run. -/
def acceptLoop : List AcceptResult → List ServeEvent × ServeOutcome
  | [] => ([.accept], .blocked)
  | .fail e :: _ => ([.accept], .panicked (.err e))
  | .conn id :: rest =>
    let r := acceptLoop rest
    (.accept :: .spawnSession id :: r.1, r.2)

/-- The method `Server.ServeTLS` (main.go:58-143). -/
def ServeTLS (s : Server) (load : String → String → LoadResult)
    (accepts : List AcceptResult) (certFile keyFile : String) :
    List ServeEvent × ServeOutcome :=
  match tlsSetup s load certFile keyFile with
  | .error p => ([], .panicked p)
  | .ok cfg =>
    let r := acceptLoop accepts
    (.newListener cfg :: r.1, r.2)

/-- The method `Server.ListenAndServeTLS` (main.go:38-56); `listen` gives the error of
`net.Listen`, `none` for `nil`. -/
def ListenAndServeTLS (s : Server) (listen : String → Option IOError)
    (load : String → String → LoadResult) (accepts : List AcceptResult)
    (certFile keyFile : String) : List ServeEvent × ServeOutcome :=
  let addr := if s.addr = "" then "localhost:853" else s.addr
  match listen addr with
  | some e => ([.listen addr], .panicked (.err e))
  | none =>
    let observer : List ServeEvent := if s.ctx.isSome then [.spawnObserver] else []
    let r := ServeTLS { s with addr := addr } load accepts certFile keyFile
    (.listen addr :: observer ++ r.1, r.2)

/-! ## Codec and buffer lemmas -/

theorem Uint16_eq (b : Byte × Byte) : Uint16 b = 256 * b.1.val + b.2.val := by
  have h1 := b.1.isLt
  have h2 : b.2.val < 2 ^ 8 := b.2.isLt
  have h := Nat.mul_add_lt_is_or h2 b.1.val
  unfold Uint16
  rw [Nat.shiftLeft_eq, Nat.lor_comm, Nat.mul_comm, ← h]
  omega

theorem PutUint16_val (v : Nat) :
    (PutUint16 v).1.val = v / 256 % 256 ∧ (PutUint16 v).2.val = v % 256 := by
  simp [PutUint16, toByte, Nat.shiftRight_eq_div_pow]

theorem Uint16_PutUint16 (v : Nat) (h : v < 65536) : Uint16 (PutUint16 v) = v := by
  rw [Uint16_eq, (PutUint16_val v).1, (PutUint16_val v).2]
  omega

theorem zeroBuf_length : zeroBuf.length = 512 := by
  unfold zeroBuf
  rw [List.length_replicate]
  rfl

theorem storeFront_length (buf bs : List Byte) (h : bs.length ≤ buf.length) :
    (storeFront buf bs).length = buf.length := by
  simp [storeFront]
  omega

theorem storeFront_take (buf bs : List Byte) :
    (storeFront buf bs).take bs.length = bs := by
  simp [storeFront]

theorem readFull_append (bs rest : List Byte) (t : IOError) :
    readFull ⟨bs ++ rest, t⟩ bs.length = (.ok bs, ⟨rest, t⟩) := by
  simp [readFull]

theorem readFull_short (c : ConnStream) (n : Nat) (h : c.data.length < n) :
    readFull c n =
      (.fail (if c.data ≠ [] ∧ c.term = .EOF then .ErrUnexpectedEOF else c.term),
        ⟨[], c.term⟩) := by
  simp [readFull, Nat.not_le.mpr h]

/-- The frame read on a stream that starts with a complete frame. -/
theorem readFrame_complete (hi lo : Byte) (payload rest : List Byte) (t : IOError)
    (hp : payload.length = 256 * hi.val + lo.val) (hL : payload.length ≤ 512) :
    readFrame ⟨hi :: lo :: (payload ++ rest), t⟩ =
      .ok ⟨(hi, lo), storeFront zeroBuf payload, payload.length⟩ ⟨rest, t⟩ := by
  have h2 : readFull ⟨hi :: lo :: (payload ++ rest), t⟩ 2 =
      (.ok [hi, lo], ⟨payload ++ rest, t⟩) := readFull_append [hi, lo] (payload ++ rest) t
  have hu : Uint16 (hi, lo) = payload.length := by rw [Uint16_eq, hp]
  have hs : sliceTo zeroBuf payload.length = .ok (zeroBuf.take payload.length) := by
    simp [sliceTo, zeroBuf_length, hL]
  simp only [readFrame, h2, List.getD_cons_zero, List.getD_cons_succ, hu, hs,
    readFull_append]

/-- The frame read on a stream whose first two bytes declare more than the buffer
holds: the slice expression panics and nothing after the two bytes is read. -/
theorem readFrame_oversize (hi lo : Byte) (rest : List Byte) (t : IOError)
    (hL : 512 < 256 * hi.val + lo.val) :
    readFrame ⟨hi :: lo :: rest, t⟩ =
      .slicePanic (.sliceBounds (256 * hi.val + lo.val) 512) ⟨rest, t⟩ := by
  have h2 : readFull ⟨hi :: lo :: rest, t⟩ 2 = (.ok [hi, lo], ⟨rest, t⟩) :=
    readFull_append [hi, lo] rest t
  have hu : Uint16 (hi, lo) = 256 * hi.val + lo.val := Uint16_eq (hi, lo)
  have hs : sliceTo zeroBuf (256 * hi.val + lo.val) =
      .error (.sliceBounds (256 * hi.val + lo.val) 512) := by
    simp [sliceTo, zeroBuf_length, Nat.not_le.mpr hL]
  simp only [readFrame, h2, List.getD_cons_zero, List.getD_cons_succ, hu, hs]

theorem readFrame_short_length (c : ConnStream) (h : c.data.length < 2) :
    readFrame c =
      .lengthErr (if c.data ≠ [] ∧ c.term = .EOF then .ErrUnexpectedEOF else c.term)
        ⟨[], c.term⟩ := by
  simp only [readFrame, readFull_short c 2 h]

theorem readFrame_short_payload (hi lo : Byte) (part : List Byte) (t : IOError)
    (hL : 256 * hi.val + lo.val ≤ 512) (hp : part.length < 256 * hi.val + lo.val) :
    readFrame ⟨hi :: lo :: part, t⟩ =
      .bufErr (256 * hi.val + lo.val)
        (if part ≠ [] ∧ t = .EOF then .ErrUnexpectedEOF else t) ⟨[], t⟩ := by
  have h2 : readFull ⟨hi :: lo :: part, t⟩ 2 = (.ok [hi, lo], ⟨part, t⟩) :=
    readFull_append [hi, lo] part t
  have hu : Uint16 (hi, lo) = 256 * hi.val + lo.val := Uint16_eq (hi, lo)
  have hs : sliceTo zeroBuf (256 * hi.val + lo.val) =
      .ok (zeroBuf.take (256 * hi.val + lo.val)) := by
    simp [sliceTo, zeroBuf_length, hL]
  have h3 := readFull_short ⟨part, t⟩ (256 * hi.val + lo.val) hp
  simp only [readFrame, h2, List.getD_cons_zero, List.getD_cons_succ, hu, hs, h3]

/-! ## Session lemmas -/

theorem refreshDeadline_ok (s : Server) (env : ConnEnv) (i : Nat)
    (h : 0 < s.maxIdle → env.setDeadline i = none) :
    refreshDeadline s env i =
      (if 0 < s.maxIdle then [.setDeadline (env.now i) s.maxIdle] else [], none) := by
  unfold refreshDeadline
  by_cases hm : 0 < s.maxIdle
  · simp [hm, h hm]
  · simp [hm]

theorem sessionFrom_of_done (s : Server) (env : ConnEnv) (i : Nat) (c : ConnStream)
    (evs : List Event) (o : Outcome) (rest : ConnStream)
    (h : iteration s env i c = .done evs o rest) :
    sessionFrom s env i c = some ⟨evs ++ [.close], o, rest⟩ := by
  simp [sessionFrom, sessionLoop, h]

theorem spawned_append (xs ys : List Event) :
    spawned (xs ++ ys) = spawned xs ++ spawned ys := by
  induction xs with
  | nil => rfl
  | cons x xs ih => cases x <;> simp [spawned, ih]

theorem spawned_refreshDeadline (s : Server) (env : ConnEnv) (i : Nat) :
    spawned (refreshDeadline s env i).1 = [] := by
  unfold refreshDeadline
  split
  · split <;> rfl
  · rfl

theorem responseFrame_eq (n : Nat) (r : List Byte) :
    responseFrame n r = (PutUint16 (toUint16 n)).1 :: (PutUint16 (toUint16 n)).2 :: r := rfl

theorem PutUint16_toUint16 (n : Nat) (h : n < 65536) :
    256 * (PutUint16 (toUint16 n)).1.val + (PutUint16 (toUint16 n)).2.val = n := by
  have h1 : toUint16 n = n := Nat.mod_eq_of_lt h
  rw [h1, (PutUint16_val n).1, (PutUint16_val n).2]
  omega

/-- What a successful frame read says about its captures and the stream. -/
theorem readFrame_ok_inv (c rest : ConnStream) (cap : Captured)
    (h : readFrame c = .ok cap rest) :
    cap.buf.length = 512 ∧ cap.length ≤ 512 ∧ cap.query.length = cap.length ∧
      c.data = rawSlice cap.lengthRaw ++ cap.query ++ rest.data ∧
      Uint16 cap.lengthRaw = cap.length ∧ rest.term = c.term := by
  obtain ⟨data, t⟩ := c
  match data, h with
  | [], h => simp [readFrame, readFull] at h
  | [a], h => simp [readFrame, readFull] at h
  | a :: b :: tl, h =>
    have h2 : readFull ⟨a :: b :: tl, t⟩ 2 = (.ok [a, b], ⟨tl, t⟩) :=
      readFull_append [a, b] tl t
    simp only [readFrame, h2, List.getD_cons_zero, List.getD_cons_succ] at h
    by_cases hL : Uint16 (a, b) ≤ 512
    · have hs : sliceTo zeroBuf (Uint16 (a, b)) = .ok (zeroBuf.take (Uint16 (a, b))) := by
        simp [sliceTo, zeroBuf_length, hL]
      simp only [hs] at h
      by_cases hp : Uint16 (a, b) ≤ tl.length
      · simp only [readFull, hp, if_true, FrameRead.ok.injEq] at h
        obtain ⟨hcap, hrest⟩ := h
        subst hcap
        subst hrest
        have hlen : (tl.take (Uint16 (a, b))).length = Uint16 (a, b) := by
          simp [hp]
        have hq : (storeFront zeroBuf (tl.take (Uint16 (a, b)))).take (Uint16 (a, b)) =
            tl.take (Uint16 (a, b)) := by
          have := storeFront_take zeroBuf (tl.take (Uint16 (a, b)))
          rwa [hlen] at this
        refine ⟨?_, hL, ?_, ?_, rfl, rfl⟩
        · rw [storeFront_length _ _ (by rw [hlen, zeroBuf_length]; exact hL), zeroBuf_length]
        · simp only [Captured.query, hq, hlen]
        · simp only [Captured.query, hq, rawSlice, List.cons_append, List.nil_append,
            List.take_append_drop]
      · simp [readFull, hp] at h
    · have hs : sliceTo zeroBuf (Uint16 (a, b)) =
          .error (.sliceBounds (Uint16 (a, b)) 512) := by
        simp [sliceTo, zeroBuf_length, hL]
      simp [hs] at h

/-! ## Dispatch lemmas -/

theorem clientWrites_append (xs ys : List DEvent) :
    clientWrites (xs ++ ys) = clientWrites xs ++ clientWrites ys := by
  induction xs with
  | nil => rfl
  | cons x xs ih => cases x <;> simp [clientWrites, ih]

theorem upstreamWrites_append (xs ys : List DEvent) :
    upstreamWrites (xs ++ ys) = upstreamWrites xs ++ upstreamWrites ys := by
  induction xs with
  | nil => rfl
  | cons x xs ih => cases x <;> simp [upstreamWrites, ih]

theorem sliceTo_query (cap : Captured) (h : cap.length ≤ cap.buf.length) :
    sliceTo cap.buf cap.length = .ok cap.query := by
  simp [sliceTo, h, Captured.query]

/-- The slice `buf[:n]` taken after `dnsConn.Read` stored `n` bytes of the datagram. -/
theorem sliceTo_response (buf d : List Byte) :
    sliceTo (storeFront buf (d.take (min d.length buf.length))) (min d.length buf.length) =
      .ok (d.take buf.length) := by
  have hl : (d.take (min d.length buf.length)).length = min d.length buf.length := by
    simp
  have hle : min d.length buf.length ≤
      (storeFront buf (d.take (min d.length buf.length))).length := by
    rw [storeFront_length _ _ (by rw [hl]; exact Nat.min_le_right _ _)]
    exact Nat.min_le_right _ _
  have ht := storeFront_take buf (d.take (min d.length buf.length))
  rw [hl] at ht
  have hd : d.take (min d.length buf.length) = d.take buf.length := by
    by_cases hc : d.length ≤ buf.length
    · rw [Nat.min_eq_left hc, List.take_of_length_le hc, List.take_of_length_le (Nat.le_refl _)]
    · rw [Nat.min_eq_right (Nat.le_of_lt (Nat.lt_of_not_le hc))]
  unfold sliceTo
  rw [if_pos hle, ht, hd]

/-- The exchange when the upstream write and read succeed. -/
theorem exchange_answered (cap : Captured) (up : Upstream) (d : List Byte)
    (hq : cap.length ≤ cap.buf.length) (hwrite : up.write = none)
    (hread : up.read = .datagram d) :
    exchange cap up =
      ([.upstreamWrite cap.query, .setReadDeadline up.now timeoutDuration,
          .upstreamRead cap.buf.length] ++
        (.clientWrite (responseFrame (min d.length cap.buf.length) (d.take cap.buf.length)) ::
          match up.clientWrite with
          | some e => [.printWriteErr e]
          | none => []),
        .returned) := by
  simp only [exchange, sliceTo_query cap hq, hwrite, hread, sliceTo_response]
  cases up.clientWrite <;> rfl

/-! ## Multi-frame sessions -/

theorem iteration_frame (s : Server) (env : ConnEnv) (i : Nat) (hi lo : Byte)
    (payload rest : List Byte) (t : IOError)
    (hdl : 0 < s.maxIdle → env.setDeadline i = none)
    (hp : payload.length = 256 * hi.val + lo.val) (hL : payload.length ≤ 512) :
    iteration s env i ⟨hi :: lo :: (payload ++ rest), t⟩ =
      .next ((refreshDeadline s env i).1 ++ [.readLength, .readBuf payload.length,
        .spawn ⟨(hi, lo), storeFront zeroBuf payload, payload.length⟩]) ⟨rest, t⟩ := by
  simp only [iteration, refreshDeadline_ok s env i hdl,
    readFrame_complete hi lo payload rest t hp hL]

theorem iteration_end (s : Server) (env : ConnEnv) (i : Nat)
    (hdl : 0 < s.maxIdle → env.setDeadline i = none) :
    iteration s env i ⟨[], .EOF⟩ =
      .done ((refreshDeadline s env i).1 ++ [.readLength, .logLengthErr .EOF]) .returned
        ⟨[], .EOF⟩ := by
  have hf := readFrame_short_length ⟨[], .EOF⟩ (by decide)
  simp only [iteration, refreshDeadline_ok s env i hdl, hf]
  simp

theorem count_readLength_refreshDeadline (s : Server) (env : ConnEnv) (i : Nat) :
    (refreshDeadline s env i).1.count .readLength = 0 := by
  unfold refreshDeadline
  split
  · split <;> simp
  · rfl

theorem toByte_length_split (p : List Byte) (h : p.length ≤ 512) :
    p.length = 256 * (toByte (p.length / 256)).val + (toByte p.length).val := by
  show p.length = 256 * (p.length / 256 % 256) + p.length % 256
  omega

/-- The loop on a stream made of complete frames followed by the end of the stream. -/
theorem sessionLoop_frames (s : Server) (env : ConnEnv)
    (hdl : 0 < s.maxIdle → ∀ i, env.setDeadline i = none) :
    ∀ ps : List (List Byte), (∀ p ∈ ps, p.length ≤ 512) → ∀ fuel i, ps.length < fuel →
      ∃ evs, sessionLoop s env fuel i
          ⟨(ps.map fun p => toByte (p.length / 256) :: toByte p.length :: p).flatten, .EOF⟩ =
            some ⟨evs, .returned, ⟨[], .EOF⟩⟩ ∧
        spawned evs = ps.map (fun p =>
          ⟨(toByte (p.length / 256), toByte p.length), storeFront zeroBuf p, p.length⟩) ∧
        evs.count .readLength = ps.length + 1 ∧
        ∃ pre, evs = pre ++ [.readLength, .logLengthErr .EOF] := by
  intro ps
  induction ps with
  | nil =>
    intro _ fuel i hfuel
    obtain ⟨fuel, rfl⟩ : ∃ k, fuel = k + 1 := ⟨fuel - 1, by simp at hfuel; omega⟩
    refine ⟨(refreshDeadline s env i).1 ++ [.readLength, .logLengthErr .EOF], ?_, ?_, ?_,
      ⟨(refreshDeadline s env i).1, rfl⟩⟩
    · simp [sessionLoop, iteration_end s env i (fun h => hdl h i)]
    · simp [spawned_append, spawned_refreshDeadline, spawned]
    · rw [List.count_append, count_readLength_refreshDeadline]
      decide
  | cons p ps ih =>
    intro hps fuel i hfuel
    obtain ⟨fuel, rfl⟩ : ∃ k, fuel = k + 1 := ⟨fuel - 1, by simp at hfuel; omega⟩
    have hp : p.length ≤ 512 := hps p (List.mem_cons_self _ _)
    obtain ⟨evs, hrun, hsp, hcount, pre, hpre⟩ :=
      ih (fun q hq => hps q (List.mem_cons_of_mem _ hq)) fuel (i + 1)
        (by simp at hfuel; omega)
    have hit := iteration_frame s env i (toByte (p.length / 256)) (toByte p.length) p
      (ps.map fun p => toByte (p.length / 256) :: toByte p.length :: p).flatten .EOF
      (fun h => hdl h i) (toByte_length_split p hp) hp
    refine ⟨((refreshDeadline s env i).1 ++ [.readLength, .readBuf p.length,
        .spawn ⟨(toByte (p.length / 256), toByte p.length), storeFront zeroBuf p,
          p.length⟩]) ++ evs, ?_, ?_, ?_,
      ⟨((refreshDeadline s env i).1 ++ [.readLength, .readBuf p.length,
        .spawn ⟨(toByte (p.length / 256), toByte p.length), storeFront zeroBuf p,
          p.length⟩]) ++ pre, ?_⟩⟩
    · simp only [List.map_cons, List.flatten_cons, List.cons_append, sessionLoop, hit, hrun,
        Option.map_some']
    · simp [spawned_append, spawned_refreshDeadline, spawned, hsp]
    · rw [List.count_append, List.count_append, count_readLength_refreshDeadline, hcount]
      simp [List.count_cons]
      omega
    · simp only [hpre, List.append_assoc]

theorem frames_length_le (ps : List (List Byte)) :
    ps.length ≤
      (ps.map fun p => toByte (p.length / 256) :: toByte p.length :: p).flatten.length := by
  induction ps with
  | nil => simp
  | cons p ps ih =>
    simp only [List.map_cons, List.flatten_cons, List.length_append, List.length_cons]
    omega

theorem dispatch_upstreamWrites (cap : Captured) (up : Upstream)
    (hq : cap.length ≤ cap.buf.length) (hdial : up.dial = none) :
    upstreamWrites (dispatch cap up).1 = [cap.query] := by
  have hs := sliceTo_query cap hq
  cases hw : up.write with
  | some e => simp [dispatch, hdial, exchange, hs, hw, upstreamWrites]
  | none =>
    cases hr : up.read with
    | fail e => simp [dispatch, hdial, exchange, hs, hw, hr, upstreamWrites]
    | datagram d =>
      have hex := exchange_answered cap up d hq hw hr
      cases hcw : up.clientWrite <;> simp [dispatch, hdial, hex, hcw, upstreamWrites]

/-! ## Shape of the session trace -/

theorem cons_split {α : Type} (a x : α) (l pre post : List α)
    (h : a :: l = pre ++ x :: post) :
    (pre = [] ∧ a = x ∧ l = post) ∨ ∃ pre1, pre = a :: pre1 ∧ l = pre1 ++ x :: post := by
  cases pre with
  | nil =>
    simp only [List.nil_append, List.cons.injEq] at h
    exact Or.inl ⟨rfl, h.1, h.2⟩
  | cons b pre1 =>
    simp only [List.cons_append, List.cons.injEq] at h
    exact Or.inr ⟨pre1, by rw [h.1], h.2⟩

theorem snoc_split {α : Type} (x y : α) (evs pre post : List α) (hxy : x ≠ y)
    (h : evs ++ [y] = pre ++ x :: post) :
    ∃ post1, post = post1 ++ [y] ∧ evs = pre ++ x :: post1 := by
  rcases List.eq_nil_or_concat post with rfl | ⟨L, b, rfl⟩
  · have h1 := (List.append_inj' h rfl).2
    simp only [List.cons.injEq, and_true] at h1
    exact absurd h1.symm hxy
  · rw [List.concat_eq_append] at h ⊢
    have h2 : evs ++ [y] = (pre ++ x :: L) ++ [b] := by
      rw [h]
      simp
    have h3 := List.append_inj' h2 rfl
    have h4 : y = b := by simpa using h3.2
    exact ⟨L, by rw [h4], h3.1⟩

/-- The three ways one iteration can go, with `R` the actions of its deadline refresh:
a panic in the refresh; an end after the length read; a dispatch and a next turn. -/
theorem iteration_cases (s : Server) (env : ConnEnv) (i : Nat) (c : ConnStream) :
    (∃ p, iteration s env i c = .done (refreshDeadline s env i).1 (.panicked p) c ∧
        (refreshDeadline s env i).2 = some p) ∨
      (∃ tl o rest, iteration s env i c =
          .done ((refreshDeadline s env i).1 ++ .readLength :: tl) o rest ∧
        (refreshDeadline s env i).2 = none ∧ Event.readLength ∉ tl ∧
        (∀ cap, Event.spawn cap ∉ tl) ∧ ∀ t d, Event.setDeadline t d ∉ tl) ∨
      (∃ cap rest, iteration s env i c =
          .next ((refreshDeadline s env i).1 ++
            [.readLength, .readBuf cap.length, .spawn cap]) rest ∧
        (refreshDeadline s env i).2 = none ∧ readFrame c = .ok cap rest) := by
  rcases hr : refreshDeadline s env i with ⟨R, _ | p⟩
  · right
    cases hf : readFrame c with
    | ok cap rest =>
      right
      exact ⟨cap, rest, by simp only [iteration, hr, hf], rfl, rfl⟩
    | lengthErr e rest =>
      left
      exact ⟨[.logLengthErr e], .returned, rest, by simp only [iteration, hr, hf], rfl,
        by simp, by simp, by simp⟩
    | bufErr n e rest =>
      left
      exact ⟨[.readBuf n, .printBufErr e], .returned, rest,
        by simp only [iteration, hr, hf], rfl, by simp, by simp, by simp⟩
    | slicePanic p rest =>
      left
      exact ⟨[], .panicked p, rest, by simp only [iteration, hr, hf], rfl,
        by simp, by simp, by simp⟩
  · left
    exact ⟨p, by simp only [iteration, hr], rfl⟩

theorem refreshDeadline_pos (s : Server) (env : ConnEnv) (i : Nat) (hm : 0 < s.maxIdle) :
    (refreshDeadline s env i).1 = [.setDeadline (env.now i) s.maxIdle] := by
  unfold refreshDeadline
  rw [if_pos hm]
  split <;> rfl

theorem refreshDeadline_nonpos (s : Server) (env : ConnEnv) (i : Nat)
    (hm : ¬ 0 < s.maxIdle) : refreshDeadline s env i = ([], none) := by
  unfold refreshDeadline
  rw [if_neg hm]

theorem refreshDeadline_snd_none (s : Server) (env : ConnEnv) (i : Nat)
    (hm : 0 < s.maxIdle) (h : (refreshDeadline s env i).2 = none) :
    env.setDeadline i = none := by
  unfold refreshDeadline at h
  rw [if_pos hm] at h
  cases hs : env.setDeadline i with
  | none => rfl
  | some e => simp [hs] at h

/-- Every iteration that goes on has consumed at least the two length bytes. -/
theorem iteration_next_length (s : Server) (env : ConnEnv) (i : Nat) (c rest : ConnStream)
    (evs : List Event) (h : iteration s env i c = .next evs rest) :
    rest.data.length + 2 ≤ c.data.length := by
  rcases iteration_cases s env i c with ⟨p, hp, -⟩ | ⟨tl, o, r1, hd, -⟩ | ⟨cap, r1, hn, -, hf⟩
  · rw [hp] at h
    cases h
  · rw [hd] at h
    cases h
  · rw [hn] at h
    cases h
    obtain ⟨-, -, -, hdata, -, -⟩ := readFrame_ok_inv c rest cap hf
    rw [hdata]
    simp only [rawSlice, List.length_append, List.length_cons, List.length_nil]
    omega

/-- The read loop ends within `data.length + 1` iterations. -/
theorem sessionLoop_total (s : Server) (env : ConnEnv) :
    ∀ fuel i c, c.data.length < fuel → ∃ r, sessionLoop s env fuel i c = some r := by
  intro fuel
  induction fuel with
  | zero =>
    intro i c h
    omega
  | succ fuel ih =>
    intro i c h
    cases hit : iteration s env i c with
    | done evs o rest => exact ⟨⟨evs, o, rest⟩, by simp only [sessionLoop, hit]⟩
    | next evs rest =>
      have hl := iteration_next_length s env i c rest evs hit
      obtain ⟨r, hr⟩ := ih (i + 1) rest (by omega)
      exact ⟨{ r with events := evs ++ r.events }, by
        simp only [sessionLoop, hit, hr, Option.map_some']⟩

/-- With a positive `maxIdle`, the trace of the loop from iteration `i` on starts with
the deadline refresh of iteration `i`, followed by the length read when the refresh
does not fail; every length read comes right after the successful refresh of its
iteration; every dispatch start comes right after the refresh, the length read and
the payload read of its iteration and is followed at once by the refresh of the next
iteration. -/
theorem sessionLoop_guarded (s : Server) (env : ConnEnv) (hm : 0 < s.maxIdle) :
    ∀ fuel i c r, sessionLoop s env fuel i c = some r →
      (∃ tl, r.events = .setDeadline (env.now i) s.maxIdle :: tl) ∧
      (env.setDeadline i = none →
        ∃ tl, r.events = .setDeadline (env.now i) s.maxIdle :: .readLength :: tl) ∧
      (∀ pre post, r.events = pre ++ .readLength :: post →
        ∃ pre1, pre =
            pre1 ++ [.setDeadline (env.now (i + pre.count .readLength)) s.maxIdle] ∧
          env.setDeadline (i + pre.count .readLength) = none) ∧
      (∀ pre cap post, r.events = pre ++ .spawn cap :: post →
        ∃ pre1 post1,
          pre = pre1 ++ [.setDeadline (env.now (i + pre1.count .readLength)) s.maxIdle,
            .readLength, .readBuf cap.length] ∧
          post =
            .setDeadline (env.now (i + pre1.count .readLength + 1)) s.maxIdle :: post1) := by
  intro fuel
  induction fuel with
  | zero =>
    intro i c r h
    simp [sessionLoop] at h
  | succ fuel ih =>
    intro i c r h
    have hR := refreshDeadline_pos s env i hm
    rcases iteration_cases s env i c with ⟨p, hp, hsome⟩ |
      ⟨tl, o, r1, hd, hnone, hrl, hsp, -⟩ | ⟨cap, r1, hn, hnone, -⟩
    · simp only [sessionLoop, hp, hR, Option.some.injEq] at h
      subst h
      refine ⟨⟨[], rfl⟩, ?_, ?_, ?_⟩
      · intro hset
        rw [refreshDeadline_ok s env i (fun _ => hset)] at hsome
        cases hsome
      · intro pre post he
        rcases cons_split _ _ _ _ _ he with ⟨-, h1, -⟩ | ⟨pre1, -, h2⟩
        · cases h1
        · simp at h2
      · intro pre cap post he
        rcases cons_split _ _ _ _ _ he with ⟨-, h1, -⟩ | ⟨pre1, -, h2⟩
        · cases h1
        · simp at h2
    · simp only [sessionLoop, hd, hR, Option.some.injEq] at h
      subst h
      refine ⟨⟨_, rfl⟩, fun _ => ⟨tl, rfl⟩, ?_, ?_⟩
      · intro pre post he
        rcases cons_split _ _ _ _ _ he with ⟨-, h1, -⟩ | ⟨pre1, rfl, h2⟩
        · cases h1
        · rcases cons_split _ _ _ _ _ h2 with ⟨rfl, -, -⟩ | ⟨pre2, -, h3⟩
          · exact ⟨[], by simp, by
              simpa [List.count_cons] using refreshDeadline_snd_none s env i hm hnone⟩
          · exact absurd (by rw [h3]; simp) hrl
      · intro pre cap post he
        have hmem : Event.spawn cap ∈ tl := by
          have : Event.spawn cap ∈
              ([Event.setDeadline (env.now i) s.maxIdle] ++ Event.readLength :: tl) := by
            have he1 : [Event.setDeadline (env.now i) s.maxIdle] ++ Event.readLength :: tl =
                pre ++ Event.spawn cap :: post := he
            rw [he1]
            simp
          simpa using this
        exact absurd hmem (hsp cap)
    · simp only [sessionLoop, hn, hR] at h
      cases hrec : sessionLoop s env fuel (i + 1) r1 with
      | none => simp [hrec] at h
      | some r2 =>
        obtain ⟨⟨tl2, htl2⟩, -, ih2, ih3⟩ := ih (i + 1) r1 r2 hrec
        simp only [hrec, Option.map_some', Option.some.injEq] at h
        subst h
        refine ⟨⟨_, rfl⟩, fun _ => ⟨_, rfl⟩, ?_, ?_⟩
        · intro pre post he
          rcases cons_split _ _ _ _ _ he with ⟨-, h1, -⟩ | ⟨pre1, rfl, h2⟩
          · cases h1
          · rcases cons_split _ _ _ _ _ h2 with ⟨rfl, -, -⟩ | ⟨pre2, rfl, h3⟩
            · exact ⟨[], by simp, by
                simpa [List.count_cons] using refreshDeadline_snd_none s env i hm hnone⟩
            · rcases cons_split _ _ _ _ _ h3 with ⟨-, h1, -⟩ | ⟨pre3, rfl, h4⟩
              · cases h1
              · rcases cons_split _ _ _ _ _ h4 with ⟨-, h1, -⟩ | ⟨pre4, rfl, h5⟩
                · cases h1
                · obtain ⟨q, hq, hq2⟩ := ih2 pre4 post h5
                  have hc : i + List.count Event.readLength
                      (Event.setDeadline (env.now i) s.maxIdle :: Event.readLength ::
                        Event.readBuf cap.length :: Event.spawn cap :: pre4) =
                      i + 1 + List.count Event.readLength pre4 := by
                    simp [List.count_cons]
                    omega
                  rw [hc]
                  refine ⟨Event.setDeadline (env.now i) s.maxIdle :: Event.readLength ::
                    Event.readBuf cap.length :: Event.spawn cap :: q, ?_, hq2⟩
                  simp only [List.cons_append, List.cons.injEq, true_and]
                  exact hq
        · intro pre cap1 post he
          rcases cons_split _ _ _ _ _ he with ⟨-, h1, -⟩ | ⟨pre1, rfl, h2⟩
          · cases h1
          · rcases cons_split _ _ _ _ _ h2 with ⟨-, h1, -⟩ | ⟨pre2, rfl, h3⟩
            · cases h1
            · rcases cons_split _ _ _ _ _ h3 with ⟨-, h1, -⟩ | ⟨pre3, rfl, h4⟩
              · cases h1
              · rcases cons_split _ _ _ _ _ h4 with ⟨rfl, hc1, h5⟩ | ⟨pre4, rfl, h5⟩
                · cases hc1
                  refine ⟨[], tl2, by simp, ?_⟩
                  rw [← h5, htl2]
                  simp
                · obtain ⟨q, post1, hq, hpost⟩ := ih3 pre4 cap1 post h5
                  have hc : i + List.count Event.readLength
                      (Event.setDeadline (env.now i) s.maxIdle :: Event.readLength ::
                        Event.readBuf cap.length :: Event.spawn cap :: q) =
                      i + 1 + List.count Event.readLength q := by
                    simp [List.count_cons]
                    omega
                  refine ⟨Event.setDeadline (env.now i) s.maxIdle :: Event.readLength ::
                    Event.readBuf cap.length :: Event.spawn cap :: q, post1, ?_, ?_⟩
                  · rw [hc, hq]
                    simp
                  · rw [hc, hpost]

/-- With a `maxIdle` that is not positive, the trace of the loop starts with a length
read and the loop never calls `SetDeadline`. -/
theorem sessionLoop_no_deadline (s : Server) (env : ConnEnv) (hm : ¬ 0 < s.maxIdle) :
    ∀ fuel i c r, sessionLoop s env fuel i c = some r →
      (∃ tl, r.events = .readLength :: tl) ∧
      ∀ t d, Event.setDeadline t d ∉ r.events := by
  intro fuel
  induction fuel with
  | zero =>
    intro i c r h
    simp [sessionLoop] at h
  | succ fuel ih =>
    intro i c r h
    have hR := refreshDeadline_nonpos s env i hm
    rcases iteration_cases s env i c with ⟨p, -, hp⟩ | ⟨tl, o, r1, hd, -, -, -, hsd⟩ |
      ⟨cap, r1, hn, -, -⟩
    · rw [hR] at hp
      cases hp
    · simp only [sessionLoop, hd, hR, Option.some.injEq] at h
      subst h
      refine ⟨⟨tl, rfl⟩, fun t d => ?_⟩
      simpa using hsd t d
    · simp only [sessionLoop, hn, hR] at h
      cases hrec : sessionLoop s env fuel (i + 1) r1 with
      | none => simp [hrec] at h
      | some r2 =>
        simp only [hrec, Option.map_some', Option.some.injEq] at h
        subst h
        refine ⟨⟨_, rfl⟩, fun t d => ?_⟩
        simpa using (ih (i + 1) r1 r2 hrec).2 t d

/-! ## Framing claims -/

/-- C1 (oversize frame). On the client stream `02 01 07`, whose first two bytes
declare the length 513, the session of the server built by `main` does not end with
an error of its own: the slice expression `buf[:length]` panics, out of range for the
512-byte buffer, before the payload byte is read, and the panic ends the process. -/
theorem oversize_frame_panics :
    session (NewServer (some 0) ":853" 120000000000 none) ⟨fun _ => 0, fun _ => none⟩
        ⟨[2, 1, 7], .EOF⟩ =
      some ⟨[.setDeadline 0 120000000000, .readLength, .close],
        .panicked (.sliceBounds 513 512), ⟨[7], .EOF⟩⟩ ∧
    (Outcome.panicked (.sliceBounds 513 512)).crashesProcess = true := by
  refine ⟨?_, rfl⟩
  have hf := readFrame_oversize 2 1 [7] .EOF (by decide)
  have hi : iteration (NewServer (some 0) ":853" 120000000000 none)
      ⟨fun _ => 0, fun _ => none⟩ 0 ⟨[2, 1, 7], .EOF⟩ =
      .done [.setDeadline 0 120000000000, .readLength] (.panicked (.sliceBounds 513 512))
        ⟨[7], .EOF⟩ := by
    simp [iteration, refreshDeadline, NewServer, hf]
  exact sessionFrom_of_done _ _ _ _ _ _ _ hi

/-- C2 (framing round-trip). For every byte sequence `p` of at most 512 bytes, the
frame read of the session, applied to the frame the dispatch builds for `p`
(whatever follows it on the stream), succeeds, and the query it yields is `p`. -/
theorem framing_round_trip (p rest : List Byte) (t : IOError) (h : p.length ≤ 512) :
    ∃ cap, readFrame ⟨responseFrame p.length p ++ rest, t⟩ = .ok cap ⟨rest, t⟩ ∧
      cap.query = p := by
  have hv := PutUint16_toUint16 p.length (by omega)
  refine ⟨⟨PutUint16 (toUint16 p.length), storeFront zeroBuf p, p.length⟩, ?_,
    storeFront_take zeroBuf p⟩
  rw [responseFrame_eq]
  exact readFrame_complete _ _ p rest t hv.symm h

theorem framing_round_trip_witness :
    ∃ cap, readFrame ⟨responseFrame [7, 8, 9].length [7, 8, 9] ++ [], .EOF⟩ =
        .ok cap ⟨[], .EOF⟩ ∧ cap.query = [7, 8, 9] :=
  framing_round_trip [7, 8, 9] [] .EOF (by decide)

/-- C3 (frame decoding). On a stream `[hi, lo] ++ payload ++ rest` with
`L = 256 * hi + lo ≤ 512` and `payload` of exactly `L` bytes, the frame read succeeds
with query `payload` and decoded length `L`; the stream it leaves is `rest`, which is
the input without its first `2 + L` bytes. -/
theorem frame_decoding (hi lo : Byte) (payload rest : List Byte) (t : IOError)
    (hL : 256 * hi.val + lo.val ≤ 512) (hp : payload.length = 256 * hi.val + lo.val) :
    ∃ cap r, readFrame ⟨[hi, lo] ++ payload ++ rest, t⟩ = .ok cap r ∧
      cap.query = payload ∧ cap.length = 256 * hi.val + lo.val ∧
      r = ⟨rest, t⟩ ∧
      r.data = ([hi, lo] ++ payload ++ rest).drop (2 + (256 * hi.val + lo.val)) := by
  refine ⟨⟨(hi, lo), storeFront zeroBuf payload, payload.length⟩, ⟨rest, t⟩, ?_,
    storeFront_take zeroBuf payload, hp, rfl, ?_⟩
  · have := readFrame_complete hi lo payload rest t hp (by omega)
    simpa using this
  · rw [← hp]
    simp [Nat.add_comm 2]

theorem frame_decoding_witness :
    ∃ cap r, readFrame ⟨[0, 2] ++ [7, 8] ++ [9], .EOF⟩ = .ok cap r ∧
      cap.query = [7, 8] ∧ cap.length = 256 * (0 : Byte).val + (2 : Byte).val ∧
      r = ⟨[9], .EOF⟩ ∧
      r.data = ([0, 2] ++ [7, 8] ++ [9]).drop (2 + (256 * (0 : Byte).val + (2 : Byte).val)) :=
  frame_decoding 0 2 [7, 8] [9] .EOF (by decide) (by decide)

/-- C5 (short read). When the stream left for an iteration holds fewer than two
bytes, or a length prefix declaring `L ≤ 512` followed by fewer than `L` bytes, and
the deadline refresh of that iteration does not fail, the session ends in that
iteration: it returns (no panic), after one length read, an error line and the
deferred close of the connection, and it starts no dispatch. -/
theorem short_read_ends_session (s : Server) (env : ConnEnv) (i : Nat) (c : ConnStream)
    (hdl : 0 < s.maxIdle → env.setDeadline i = none)
    (hshort : c.data.length < 2 ∨
      ∃ hi lo part, c.data = hi :: lo :: part ∧ 256 * hi.val + lo.val ≤ 512 ∧
        part.length < 256 * hi.val + lo.val) :
    ∃ r e, sessionFrom s env i c = some r ∧ r.outcome = .returned ∧
      spawned r.events = [] ∧ r.rest.data = [] ∧
      (r.events = (refreshDeadline s env i).1 ++ [.readLength, .logLengthErr e, .close] ∨
        ∃ n, r.events =
          (refreshDeadline s env i).1 ++ [.readLength, .readBuf n, .printBufErr e, .close]) := by
  have hr := refreshDeadline_ok s env i hdl
  rcases hshort with h | ⟨hi, lo, part, hc, hL, hp⟩
  · have hf := readFrame_short_length c h
    have hit : iteration s env i c = .done ((refreshDeadline s env i).1 ++
        [.readLength, .logLengthErr
          (if c.data ≠ [] ∧ c.term = .EOF then .ErrUnexpectedEOF else c.term)])
        .returned ⟨[], c.term⟩ := by
      simp only [iteration, hr, hf]
    refine ⟨_, if c.data ≠ [] ∧ c.term = .EOF then .ErrUnexpectedEOF else c.term,
      sessionFrom_of_done _ _ _ _ _ _ _ hit, rfl, ?_, rfl, Or.inl ?_⟩
    · simp [spawned_append, spawned_refreshDeadline, spawned]
    · simp
  · obtain ⟨data, t⟩ := c
    simp only at hc
    subst hc
    have hf := readFrame_short_payload hi lo part t hL hp
    have hit : iteration s env i ⟨hi :: lo :: part, t⟩ =
        .done ((refreshDeadline s env i).1 ++
          [.readLength, .readBuf (256 * hi.val + lo.val), .printBufErr
            (if part ≠ [] ∧ t = .EOF then .ErrUnexpectedEOF else t)])
        .returned ⟨[], t⟩ := by
      simp only [iteration, hr, hf]
    refine ⟨_, if part ≠ [] ∧ t = .EOF then .ErrUnexpectedEOF else t,
      sessionFrom_of_done _ _ _ _ _ _ _ hit, rfl, ?_, rfl,
      Or.inr ⟨256 * hi.val + lo.val, ?_⟩⟩
    · simp [spawned_append, spawned_refreshDeadline, spawned]
    · simp

theorem short_read_ends_session_witness :
    ∃ r e, sessionFrom (NewServer none ":853" 0 none) ⟨fun _ => 0, fun _ => none⟩ 0
        ⟨[0, 3, 1], .EOF⟩ = some r ∧ r.outcome = .returned ∧
      spawned r.events = [] ∧ r.rest.data = [] ∧
      (r.events = (refreshDeadline (NewServer none ":853" 0 none)
          ⟨fun _ => 0, fun _ => none⟩ 0).1 ++ [.readLength, .logLengthErr e, .close] ∨
        ∃ n, r.events = (refreshDeadline (NewServer none ":853" 0 none)
          ⟨fun _ => 0, fun _ => none⟩ 0).1 ++
            [.readLength, .readBuf n, .printBufErr e, .close]) :=
  short_read_ends_session (NewServer none ":853" 0 none) ⟨fun _ => 0, fun _ => none⟩ 0
    ⟨[0, 3, 1], .EOF⟩ (fun _ => rfl) (Or.inr ⟨0, 3, [1], rfl, by decide, by decide⟩)

/-! ## Dispatch claims -/

/-- C4 (exchange and response framing). For a query decoded by the frame read, when
the dial, the upstream write and the upstream read succeed and the read delivers the
datagram `d`, the dispatch sends exactly the query bytes upstream and makes exactly
one write to the client: two bytes `hi lo` with `256 * hi + lo = n`, followed by the
`n` bytes read (`d` cut to the 512-byte buffer; `d` itself when it has at most 512
bytes), `n + 2` bytes in all. -/
theorem exchange_and_response_framing (c rest : ConnStream) (cap : Captured)
    (up : Upstream) (d : List Byte) (hdec : readFrame c = .ok cap rest)
    (hdial : up.dial = none) (hwrite : up.write = none) (hread : up.read = .datagram d) :
    ∃ hi lo : Byte,
      256 * hi.val + lo.val = (d.take 512).length ∧
      upstreamWrites (dispatch cap up).1 = [cap.query] ∧
      clientWrites (dispatch cap up).1 = [hi :: lo :: d.take 512] ∧
      (hi :: lo :: d.take 512).length = (d.take 512).length + 2 ∧
      (dispatch cap up).2 = .returned := by
  obtain ⟨hbuf, hlen, -, -, -, -⟩ := readFrame_ok_inv c rest cap hdec
  have hq : cap.length ≤ cap.buf.length := by omega
  have hex := exchange_answered cap up d hq hwrite hread
  have hn : min d.length cap.buf.length = (d.take 512).length := by
    rw [hbuf, List.length_take, Nat.min_comm]
  have hv := PutUint16_toUint16 (d.take 512).length (by
    have : (d.take 512).length ≤ 512 := by simp
    omega)
  refine ⟨(PutUint16 (toUint16 (d.take 512).length)).1,
    (PutUint16 (toUint16 (d.take 512).length)).2, hv, ?_, ?_, by simp, ?_⟩
  · simp only [dispatch, hdial, hex]
    cases up.clientWrite <;> simp [upstreamWrites]
  · rw [hbuf] at hex
    rw [hbuf] at hn
    simp only [dispatch, hdial, hex, hn, responseFrame_eq]
    cases up.clientWrite <;> simp [clientWrites]
  · simp only [dispatch, hdial, hex]

theorem exchange_and_response_framing_witness :
    upstreamWrites (dispatch
        ⟨(0, 28), storeFront zeroBuf (List.replicate 28 1), (List.replicate 28 1).length⟩
        ⟨none, none, 0, .datagram (List.replicate 44 2), none⟩).1 =
      [List.replicate 28 1] ∧
    clientWrites (dispatch
        ⟨(0, 28), storeFront zeroBuf (List.replicate 28 1), (List.replicate 28 1).length⟩
        ⟨none, none, 0, .datagram (List.replicate 44 2), none⟩).1 =
      [0 :: 44 :: List.replicate 44 2] := by
  have hdec : readFrame ⟨0 :: 28 :: (List.replicate 28 1 ++ []), .EOF⟩ =
      .ok ⟨(0, 28), storeFront zeroBuf (List.replicate 28 1), (List.replicate 28 1).length⟩
        ⟨[], .EOF⟩ :=
    readFrame_complete 0 28 (List.replicate 28 1) [] .EOF (by decide) (by decide)
  obtain ⟨hi, lo, hn, hu, hc, -, -⟩ := exchange_and_response_framing _ _ _
    ⟨none, none, 0, .datagram (List.replicate 44 2), none⟩ (List.replicate 44 2) hdec
    rfl rfl rfl
  have ht : (List.replicate 44 (2 : Byte)).take 512 = List.replicate 44 2 := by decide
  rw [ht] at hn hc
  have h44 : (List.replicate 44 (2 : Byte)).length = 44 := by decide
  rw [h44] at hn
  have hhi : hi = 0 := Fin.ext (by show hi.val = 0; omega)
  have hlo : lo = 44 := Fin.ext (by show lo.val = 44; omega)
  subst hhi
  subst hlo
  refine ⟨?_, hc⟩
  rw [hu]
  exact congrArg (fun q => [q]) (storeFront_take zeroBuf (List.replicate 28 1))

/-- C6, counterexample. A dispatch whose dial fails panics with the dial error, and
the panic ends the process, the owning session included. -/
theorem dial_failure_panics :
    readFrame ⟨[0, 1, 7], .EOF⟩ = .ok ⟨(0, 1), storeFront zeroBuf [7], 1⟩ ⟨[], .EOF⟩ ∧
    (dispatch ⟨(0, 1), storeFront zeroBuf [7], 1⟩
        ⟨some (.other 1), none, 0, .datagram [], none⟩).2 = .panicked (.err (.other 1)) ∧
    (dispatch ⟨(0, 1), storeFront zeroBuf [7], 1⟩
        ⟨some (.other 1), none, 0, .datagram [], none⟩).2 ≠ .returned ∧
    (dispatch ⟨(0, 1), storeFront zeroBuf [7], 1⟩
        ⟨some (.other 1), none, 0, .datagram [], none⟩).2.crashesProcess = true := by
  refine ⟨readFrame_complete 0 1 [7] [] .EOF (by decide) (by decide), ?_, ?_, ?_⟩ <;>
    simp [dispatch, Outcome.crashesProcess]

/-- C6, amended. For a query decoded by the frame read: when the dial succeeds, the
dispatch goroutine always returns (it never panics) after closing its upstream
association, whatever the upstream write, the upstream read and the client write
answer; when the upstream write or read fails it calls no write on the client
connection, and in every case it calls at most one. When the dial fails with `e`, the
dispatch does nothing more and panics with `e`. -/
theorem dispatch_failure_is_local (c rest : ConnStream) (cap : Captured) (up : Upstream)
    (hdec : readFrame c = .ok cap rest) :
    (up.dial = none →
      (dispatch cap up).2 = .returned ∧
      (dispatch cap up).2.crashesProcess = false ∧
      (dispatch cap up).1.getLast? = some .upstreamClose ∧
      ((up.write ≠ none ∨ ∃ e, up.read = .fail e) → clientWrites (dispatch cap up).1 = []) ∧
      (clientWrites (dispatch cap up).1).length ≤ 1) ∧
    (∀ e, up.dial = some e →
      dispatch cap up = ([.dial "udp" dnsServerAddr], .panicked (.err e))) := by
  obtain ⟨hbuf, hlen, -, -, -, -⟩ := readFrame_ok_inv c rest cap hdec
  have hq : cap.length ≤ cap.buf.length := by omega
  have hs := sliceTo_query cap hq
  refine ⟨?_, fun e he => by simp only [dispatch, he]⟩
  intro hdial
  cases hw : up.write with
  | some e =>
    simp [dispatch, hdial, exchange, hs, hw, Outcome.crashesProcess, clientWrites]
  | none =>
    cases hr : up.read with
    | fail e =>
      simp [dispatch, hdial, exchange, hs, hw, hr, Outcome.crashesProcess, clientWrites]
    | datagram d =>
      have hex := exchange_answered cap up d hq hw hr
      cases hcw : up.clientWrite <;>
        simp [dispatch, hdial, hex, hcw, Outcome.crashesProcess, clientWrites]

theorem dispatch_failure_is_local_witness :
    ((⟨none, none, 0, .fail .deadlineExceeded, none⟩ : Upstream).dial = none →
      (dispatch ⟨(0, 1), storeFront zeroBuf [7], [7].length⟩
        ⟨none, none, 0, .fail .deadlineExceeded, none⟩).2 = .returned ∧
      (dispatch ⟨(0, 1), storeFront zeroBuf [7], [7].length⟩
        ⟨none, none, 0, .fail .deadlineExceeded, none⟩).2.crashesProcess = false ∧
      (dispatch ⟨(0, 1), storeFront zeroBuf [7], [7].length⟩
        ⟨none, none, 0, .fail .deadlineExceeded, none⟩).1.getLast? = some .upstreamClose ∧
      (((⟨none, none, 0, .fail .deadlineExceeded, none⟩ : Upstream).write ≠ none ∨
          ∃ e, (⟨none, none, 0, .fail .deadlineExceeded, none⟩ : Upstream).read = .fail e) →
        clientWrites (dispatch ⟨(0, 1), storeFront zeroBuf [7], [7].length⟩
          ⟨none, none, 0, .fail .deadlineExceeded, none⟩).1 = []) ∧
      (clientWrites (dispatch ⟨(0, 1), storeFront zeroBuf [7], [7].length⟩
        ⟨none, none, 0, .fail .deadlineExceeded, none⟩).1).length ≤ 1) ∧
    (∀ e, (⟨none, none, 0, .fail .deadlineExceeded, none⟩ : Upstream).dial = some e →
      dispatch ⟨(0, 1), storeFront zeroBuf [7], [7].length⟩
          ⟨none, none, 0, .fail .deadlineExceeded, none⟩ =
        ([.dial "udp" dnsServerAddr], .panicked (.err e))) :=
  dispatch_failure_is_local ⟨0 :: 1 :: ([7] ++ []), .EOF⟩ ⟨[], .EOF⟩ _ _
    (readFrame_complete 0 1 [7] [] .EOF (by decide) (by decide))

/-! ## Listener claims -/

theorem acceptLoop_fail (conns : List Nat) (e : IOError) (later : List AcceptResult) :
    acceptLoop (conns.map .conn ++ .fail e :: later) =
      ((conns.map fun id => [ServeEvent.accept, .spawnSession id]).flatten ++ [.accept],
        .panicked (.err e)) := by
  induction conns with
  | nil => rfl
  | cons id conns ih => simp [acceptLoop, ih]

theorem acceptLoop_no_return (accepts : List AcceptResult) (e : IOError) :
    (acceptLoop accepts).2 ≠ .returned e := by
  induction accepts with
  | nil => simp [acceptLoop]
  | cons a accepts ih =>
    cases a with
    | conn id => simpa [acceptLoop] using ih
    | fail e1 => simp [acceptLoop]

theorem ServeTLS_no_return (s : Server) (load : String → String → LoadResult)
    (accepts : List AcceptResult) (certFile keyFile : String) (e : IOError) :
    (ServeTLS s load accepts certFile keyFile).2 ≠ .returned e := by
  unfold ServeTLS
  split
  · simp
  · exact acceptLoop_no_return accepts e

/-- C7, counterexample. The server built by `main`, listening and loading its key pair
without error, accepts one connection and then sees `Accept` fail because the
listener was closed: the call does not return that error, it panics with it. -/
theorem accept_failure_not_returned :
    (ListenAndServeTLS (NewServer (some 0) ":853" 120000000000 none) (fun _ => none)
        (fun _ _ => .ok 1) [.conn 1, .fail .closed] "site.crt" "site.key").2 =
      .panicked (.err .closed) ∧
    (ListenAndServeTLS (NewServer (some 0) ":853" 120000000000 none) (fun _ => none)
        (fun _ _ => .ok 1) [.conn 1, .fail .closed] "site.crt" "site.key").2 ≠
      .returned .closed := by
  constructor <;> decide

/-- C7, amended. When the TLS set-up succeeds and `Accept` fails with `e` after the
connections `conns` were accepted, `ServeTLS` has started one session per accepted
connection and then panics with `e`, and so does `ListenAndServeTLS` when its
`net.Listen` succeeds; and in no run does either call return an error value. -/
theorem accept_failure_panics (s : Server) (load : String → String → LoadResult)
    (certFile keyFile : String) (conns : List Nat) (e : IOError)
    (later : List AcceptResult) (cfg : TLSConfig)
    (hsetup : tlsSetup s load certFile keyFile = .ok cfg) :
    ServeTLS s load (conns.map .conn ++ .fail e :: later) certFile keyFile =
        (.newListener cfg ::
          ((conns.map fun id => [ServeEvent.accept, .spawnSession id]).flatten ++ [.accept]),
          .panicked (.err e)) ∧
      (∀ listen : String → Option IOError,
        listen (if s.addr = "" then "localhost:853" else s.addr) = none →
        (ListenAndServeTLS s listen load (conns.map .conn ++ .fail e :: later)
          certFile keyFile).2 = .panicked (.err e)) ∧
      (∀ (listen : String → Option IOError) (accepts : List AcceptResult) (e1 : IOError),
        (ServeTLS s load accepts certFile keyFile).2 ≠ .returned e1 ∧
        (ListenAndServeTLS s listen load accepts certFile keyFile).2 ≠ .returned e1) := by
  refine ⟨?_, ?_, ?_⟩
  · simp only [ServeTLS, hsetup, acceptLoop_fail]
  · intro listen hl
    have hs : tlsSetup { s with addr := if s.addr = "" then "localhost:853" else s.addr }
        load certFile keyFile = .ok cfg := hsetup
    simp only [ListenAndServeTLS, hl, ServeTLS, hs, acceptLoop_fail]
  · intro listen accepts e1
    refine ⟨ServeTLS_no_return s load accepts certFile keyFile e1, ?_⟩
    cases hl : listen (if s.addr = "" then "localhost:853" else s.addr) with
    | some e2 => simp [ListenAndServeTLS, hl]
    | none =>
      simp only [ListenAndServeTLS, hl]
      exact ServeTLS_no_return _ load accepts certFile keyFile e1

theorem accept_failure_panics_witness :
    ServeTLS (NewServer (some 0) ":853" 120000000000 none) (fun _ _ => .ok 1)
        ([1, 2].map .conn ++ .fail .closed :: []) "site.crt" "site.key" =
        (.newListener ⟨[CurveP256], VersionTLS13, true, [1], none⟩ ::
          (([1, 2].map fun id => [ServeEvent.accept, .spawnSession id]).flatten ++ [.accept]),
          .panicked (.err .closed)) ∧
      (∀ listen : String → Option IOError,
        listen (if (NewServer (some 0) ":853" 120000000000 none).addr = ""
          then "localhost:853" else (NewServer (some 0) ":853" 120000000000 none).addr) =
            none →
        (ListenAndServeTLS (NewServer (some 0) ":853" 120000000000 none) listen
          (fun _ _ => .ok 1) ([1, 2].map .conn ++ .fail .closed :: [])
          "site.crt" "site.key").2 = .panicked (.err .closed)) ∧
      (∀ (listen : String → Option IOError) (accepts : List AcceptResult) (e1 : IOError),
        (ServeTLS (NewServer (some 0) ":853" 120000000000 none) (fun _ _ => .ok 1) accepts
          "site.crt" "site.key").2 ≠ .returned e1 ∧
        (ListenAndServeTLS (NewServer (some 0) ":853" 120000000000 none) listen
          (fun _ _ => .ok 1) accepts "site.crt" "site.key").2 ≠ .returned e1) :=
  accept_failure_panics (NewServer (some 0) ":853" 120000000000 none) (fun _ _ => .ok 1)
    "site.crt" "site.key" [1, 2] .closed [] ⟨[CurveP256], VersionTLS13, true, [1], none⟩ rfl

/-- C9, counterexample. A server constructed with a configuration that asks for
TLS 1.2, no curve preference and no server preference, and that carries a
certificate, wraps its listener with that configuration as it is. -/
theorem supplied_tls_config_kept :
    (ServeTLS (NewServer none ":853" 0 (some ⟨[], 0x0303, false, [5], none⟩))
        (fun _ _ => .ok 1) [] "site.crt" "site.key").1.head? =
      some (.newListener ⟨[], 0x0303, false, [5], none⟩) ∧
    (⟨[], 0x0303, false, [5], none⟩ : TLSConfig).MinVersion ≠ VersionTLS13 ∧
    (⟨[], 0x0303, false, [5], none⟩ : TLSConfig).CurvePreferences ≠ [CurveP256] ∧
    (⟨[], 0x0303, false, [5], none⟩ : TLSConfig).PreferServerCipherSuites ≠ true := by
  refine ⟨?_, ?_, ?_, ?_⟩ <;> decide

theorem acceptLoop_no_newListener (accepts : List AcceptResult) (cfg : TLSConfig) :
    ServeEvent.newListener cfg ∉ (acceptLoop accepts).1 := by
  induction accepts with
  | nil => simp [acceptLoop]
  | cons a accepts ih =>
    cases a with
    | conn id => simpa [acceptLoop] using ih
    | fail e => simp [acceptLoop]

/-- The only `tls.NewListener` call of `ServeTLS` is made with the result of the
TLS set-up. -/
theorem ServeTLS_newListener (s : Server) (load : String → String → LoadResult)
    (accepts : List AcceptResult) (certFile keyFile : String) (cfg : TLSConfig)
    (h : ServeEvent.newListener cfg ∈ (ServeTLS s load accepts certFile keyFile).1) :
    tlsSetup s load certFile keyFile = .ok cfg := by
  unfold ServeTLS at h
  cases hs : tlsSetup s load certFile keyFile with
  | error p => simp [hs] at h
  | ok cfg1 =>
    simp only [hs, List.mem_cons, ServeEvent.newListener.injEq] at h
    rcases h with h | h
    · rw [h]
    · exact absurd h (acceptLoop_no_newListener accepts cfg)

/-- C9, amended. For a server constructed with a `nil` configuration, `ServeTLS`
loads the key pair; when it loads, the first action is to wrap the listener with the
configuration of minimum version TLS 1.3, curve preferences exactly P-256 and server
cipher-suite preference, carrying the loaded certificate; when it does not load, the
call panics with the load error and wraps no listener. For a server constructed with
a configuration `tc` that carries a certificate or a `GetCertificate` callback, no
key pair is loaded and the first action is to wrap the listener with `tc` as it is,
whatever the load would answer. For a server constructed with a configuration `tc`
that carries neither, the first action is to wrap the listener with `tc` plus the
loaded certificate when the key pair loads, and the call panics with the load error
and wraps no listener when it does not. In every run, each configuration a listener
is wrapped with has the policy of the first case when the server was constructed
with `nil`, and the minimum version, curve preferences and cipher-suite preference
of `tc` when it was constructed with `tc`. -/
theorem tls_policy_of_config (ctx : Option Nat) (addr : String) (maxIdle : Duration)
    (tlsConfig : Option TLSConfig) (load : String → String → LoadResult)
    (accepts : List AcceptResult) (certFile keyFile : String) :
    (tlsConfig = none →
      (∀ cert, load certFile keyFile = .ok cert →
        (ServeTLS (NewServer ctx addr maxIdle tlsConfig) load accepts
          certFile keyFile).1.head? =
            some (.newListener ⟨[CurveP256], VersionTLS13, true, [cert], none⟩)) ∧
      (∀ e, load certFile keyFile = .fail e →
        ServeTLS (NewServer ctx addr maxIdle tlsConfig) load accepts certFile keyFile =
          ([], .panicked (.err e)))) ∧
    (∀ tc, tlsConfig = some tc →
      (¬ (tc.Certificates.length = 0 ∧ tc.GetCertificate = none) →
        (ServeTLS (NewServer ctx addr maxIdle tlsConfig) load accepts
          certFile keyFile).1.head? = some (.newListener tc)) ∧
      ((tc.Certificates.length = 0 ∧ tc.GetCertificate = none) →
        (∀ cert, load certFile keyFile = .ok cert →
          (ServeTLS (NewServer ctx addr maxIdle tlsConfig) load accepts
            certFile keyFile).1.head? =
              some (.newListener { tc with Certificates := [cert] })) ∧
        (∀ e, load certFile keyFile = .fail e →
          ServeTLS (NewServer ctx addr maxIdle tlsConfig) load accepts certFile keyFile =
            ([], .panicked (.err e))))) ∧
    (∀ cfg, ServeEvent.newListener cfg ∈
        (ServeTLS (NewServer ctx addr maxIdle tlsConfig) load accepts certFile keyFile).1 →
      (tlsConfig = none →
        cfg.MinVersion = VersionTLS13 ∧ cfg.CurvePreferences = [CurveP256] ∧
        cfg.PreferServerCipherSuites = true) ∧
      (∀ tc, tlsConfig = some tc →
        cfg.MinVersion = tc.MinVersion ∧ cfg.CurvePreferences = tc.CurvePreferences ∧
        cfg.PreferServerCipherSuites = tc.PreferServerCipherSuites)) := by
  refine ⟨?_, ?_, ?_⟩
  · intro hnil
    subst hnil
    constructor
    · intro cert hload
      simp [ServeTLS, tlsSetup, NewServer, hload]
    · intro e hload
      simp [ServeTLS, tlsSetup, NewServer, hload]
  · intro tc htc
    subst htc
    constructor
    · intro hc
      simp only [ServeTLS, tlsSetup, NewServer, hc]
      simp
    · intro hc
      constructor
      · intro cert hload
        simp only [ServeTLS, tlsSetup, NewServer, hc, hload]
        simp
      · intro e hload
        simp only [ServeTLS, tlsSetup, NewServer, hc, hload]
        simp
  · intro cfg hmem
    have hs := ServeTLS_newListener _ load accepts certFile keyFile cfg hmem
    constructor
    · intro hnil
      subst hnil
      cases hl : load certFile keyFile with
      | ok cert =>
        simp [tlsSetup, NewServer, hl] at hs
        subst hs
        exact ⟨rfl, rfl, rfl⟩
      | fail e => simp [tlsSetup, NewServer, hl] at hs
    · intro tc htc
      subst htc
      by_cases hc : tc.Certificates.length = 0 ∧ tc.GetCertificate = none
      · cases hl : load certFile keyFile with
        | ok cert =>
          simp only [tlsSetup, NewServer, hc, hl] at hs
          simp at hs
          subst hs
          exact ⟨rfl, rfl, rfl⟩
        | fail e =>
          simp only [tlsSetup, NewServer, hc, hl] at hs
          simp at hs
      · simp only [tlsSetup, NewServer, hc] at hs
        simp at hs
        subst hs
        exact ⟨rfl, rfl, rfl⟩

theorem tls_policy_of_config_witness :
    (ServeTLS (NewServer none ":853" 0 (some ⟨[], 0x0303, false, [5], none⟩))
        (fun _ _ => .fail (.other 2)) [] "site.crt" "site.key").1.head? =
      some (.newListener ⟨[], 0x0303, false, [5], none⟩) ∧
    (ServeTLS (NewServer (some 0) ":853" 120000000000 none)
        (fun _ _ => .ok 1) [] "site.crt" "site.key").1.head? =
      some (.newListener ⟨[CurveP256], VersionTLS13, true, [1], none⟩) ∧
    ServeTLS (NewServer (some 0) ":853" 120000000000 none)
        (fun _ _ => .fail (.other 2)) [] "site.crt" "site.key" =
      ([], .panicked (.err (.other 2))) :=
  ⟨((tls_policy_of_config none ":853" 0 (some ⟨[], 0x0303, false, [5], none⟩)
      (fun _ _ => .fail (.other 2)) [] "site.crt" "site.key").2.1 _ rfl).1 (by decide),
    ((tls_policy_of_config (some 0) ":853" 120000000000 none
      (fun _ _ => .ok 1) [] "site.crt" "site.key").1 rfl).1 1 rfl,
    ((tls_policy_of_config (some 0) ":853" 120000000000 none
      (fun _ _ => .fail (.other 2)) [] "site.crt" "site.key").1 rfl).2 (.other 2) rfl⟩

/-! ## Session claims -/

/-- C10 (sequential multi-frame session). For payloads `p1 .. pk`, each of at most 512
bytes (empty ones included), on the stream of their frames (high length byte, low
length byte, payload) followed by the end of the stream, and with no failing
deadline refresh, the session starts exactly `k` dispatches whose queries are
`p1 .. pk` in that order; each dispatch sends its own query upstream whatever the
other frames were; the session makes `k + 1` length reads, the last of which fails
with `EOF`, and then returns after closing the connection. -/
theorem sequential_frames (s : Server) (env : ConnEnv) (ps : List (List Byte))
    (hdl : 0 < s.maxIdle → ∀ i, env.setDeadline i = none)
    (hps : ∀ p ∈ ps, p.length ≤ 512) :
    ∃ r, session s env
        ⟨(ps.map fun p => toByte (p.length / 256) :: toByte p.length :: p).flatten, .EOF⟩ =
          some r ∧
      (spawned r.events).map Captured.query = ps ∧
      (∀ cap ∈ spawned r.events, ∀ up : Upstream, up.dial = none →
        upstreamWrites (dispatch cap up).1 = [cap.query]) ∧
      r.events.count .readLength = ps.length + 1 ∧
      (∃ pre, r.events = pre ++ [.readLength, .logLengthErr .EOF, .close]) ∧
      r.outcome = .returned := by
  obtain ⟨evs, hrun, hsp, hcount, pre, hpre⟩ := sessionLoop_frames s env hdl ps hps
    ((ps.map fun p => toByte (p.length / 256) :: toByte p.length :: p).flatten.length + 1) 0
    (Nat.lt_succ_of_le (frames_length_le ps))
  have hspawn : spawned (evs ++ [.close]) = ps.map (fun p =>
      ⟨(toByte (p.length / 256), toByte p.length), storeFront zeroBuf p, p.length⟩) := by
    rw [spawned_append, hsp]
    simp [spawned]
  refine ⟨⟨evs ++ [.close], .returned, ⟨[], .EOF⟩⟩, ?_, ?_, ?_, ?_, ⟨pre, ?_⟩, rfl⟩
  · simp only [session, sessionFrom, hrun, Option.map_some']
  · rw [hspawn, List.map_map]
    conv => rhs; rw [← List.map_id ps]
    apply List.map_congr_left
    intro p _
    exact storeFront_take zeroBuf p
  · intro cap hcap up hdial
    rw [hspawn, List.mem_map] at hcap
    obtain ⟨p, hp, rfl⟩ := hcap
    apply dispatch_upstreamWrites _ up _ hdial
    show p.length ≤ (storeFront zeroBuf p).length
    rw [storeFront_length _ _ (by rw [zeroBuf_length]; exact hps p hp), zeroBuf_length]
    exact hps p hp
  · show (evs ++ [Event.close]).count .readLength = ps.length + 1
    rw [List.count_append, hcount]
    simp
  · show evs ++ [Event.close] = pre ++ [.readLength, .logLengthErr .EOF, .close]
    rw [hpre]
    simp

theorem sequential_frames_witness :
    ∃ r, session (NewServer (some 0) ":853" 120000000000 none) ⟨fun _ => 0, fun _ => none⟩
        ⟨([[7, 8], [], [9]].map fun p =>
          toByte (p.length / 256) :: toByte p.length :: p).flatten, .EOF⟩ = some r ∧
      (spawned r.events).map Captured.query = [[7, 8], [], [9]] ∧
      (∀ cap ∈ spawned r.events, ∀ up : Upstream, up.dial = none →
        upstreamWrites (dispatch cap up).1 = [cap.query]) ∧
      r.events.count .readLength = [[7, 8], [], [(9 : Byte)]].length + 1 ∧
      (∃ pre, r.events = pre ++ [.readLength, .logLengthErr .EOF, .close]) ∧
      r.outcome = .returned :=
  sequential_frames (NewServer (some 0) ":853" 120000000000 none)
    ⟨fun _ => 0, fun _ => none⟩ [[7, 8], [], [9]] (fun _ _ => rfl) (by decide)

/-- C8 (idle-deadline refresh). Every session runs to an end, and in its trace:
when `maxIdle > 0`, the first action is the call `conn.SetDeadline(now.Add(maxIdle))`
with the clock reading of iteration 0, followed by the first length read when that
call returns no error; each length read is immediately preceded by the call
`conn.SetDeadline(now.Add(maxIdle))` made with the clock reading of its iteration
(the number of length reads made before counts the iterations), a call that returned
no error; each dispatch start, that is each successfully decoded frame, comes right
after the refresh, the length read and the payload read of its iteration and is
immediately followed by the refresh of the next iteration, which asks for the
instant `maxIdle` after the new clock reading, a later instant than the deadline the
frame was read under whenever the clock did not go back. When `maxIdle ≤ 0`, the
first action is a length read and the session never calls `SetDeadline`. -/
theorem idle_deadline_refresh (s : Server) (env : ConnEnv) (c : ConnStream) :
    ∃ r, session s env c = some r ∧
      (0 < s.maxIdle →
        (∃ tl, r.events = .setDeadline (env.now 0) s.maxIdle :: tl) ∧
        (env.setDeadline 0 = none →
          ∃ tl, r.events = .setDeadline (env.now 0) s.maxIdle :: .readLength :: tl) ∧
        (∀ pre post, r.events = pre ++ .readLength :: post →
          ∃ pre1, pre =
              pre1 ++ [.setDeadline (env.now (pre.count .readLength)) s.maxIdle] ∧
            env.setDeadline (pre.count .readLength) = none) ∧
        (∀ pre cap post, r.events = pre ++ .spawn cap :: post →
          ∃ pre1 post1,
            pre = pre1 ++ [.setDeadline (env.now (pre1.count .readLength)) s.maxIdle,
              .readLength, .readBuf cap.length] ∧
            post =
              .setDeadline (env.now (pre1.count .readLength + 1)) s.maxIdle :: post1 ∧
            env.now (pre1.count .readLength + 1) <
              timeAdd (env.now (pre1.count .readLength + 1)) s.maxIdle ∧
            (env.now (pre1.count .readLength) ≤ env.now (pre1.count .readLength + 1) →
              timeAdd (env.now (pre1.count .readLength)) s.maxIdle ≤
                timeAdd (env.now (pre1.count .readLength + 1)) s.maxIdle))) ∧
      (s.maxIdle ≤ 0 →
        (∃ tl, r.events = .readLength :: tl) ∧
        ∀ t d, Event.setDeadline t d ∉ r.events) := by
  obtain ⟨r0, hr0⟩ := sessionLoop_total s env (c.data.length + 1) 0 c (Nat.lt_succ_self _)
  refine ⟨{ r0 with events := r0.events ++ [.close] }, ?_, ?_, ?_⟩
  · simp only [session, sessionFrom, hr0, Option.map_some']
  · intro hm
    obtain ⟨⟨tl, htl⟩, h1, h2, h3⟩ := sessionLoop_guarded s env hm _ 0 c r0 hr0
    refine ⟨⟨tl ++ [.close], ?_⟩, ?_, ?_, ?_⟩
    · show r0.events ++ [Event.close] = _
      rw [htl]
      rfl
    · intro hset
      obtain ⟨tl1, htl1⟩ := h1 hset
      refine ⟨tl1 ++ [.close], ?_⟩
      show r0.events ++ [Event.close] = _
      rw [htl1]
      rfl
    · intro pre post he
      obtain ⟨post1, -, he1⟩ :=
        snoc_split Event.readLength Event.close r0.events pre post (by simp) he
      obtain ⟨q, hq, hq2⟩ := h2 pre post1 he1
      rw [Nat.zero_add] at hq hq2
      exact ⟨q, hq, hq2⟩
    · intro pre cap post he
      obtain ⟨post1, hp1, he1⟩ :=
        snoc_split (Event.spawn cap) Event.close r0.events pre post (by simp) he
      obtain ⟨pre1, q, hpre, hq⟩ := h3 pre cap post1 he1
      rw [Nat.zero_add] at hpre hq
      refine ⟨pre1, q ++ [.close], hpre, by rw [hp1, hq]; rfl, ?_, ?_⟩
      · show env.now _ < env.now _ + s.maxIdle
        exact lt_add_of_pos_right _ hm
      · intro hle
        show env.now _ + s.maxIdle ≤ env.now _ + s.maxIdle
        exact add_le_add_right hle _
  · intro hm
    have hneg : ¬ 0 < s.maxIdle := not_lt.mpr hm
    obtain ⟨⟨tl, htl⟩, hno⟩ := sessionLoop_no_deadline s env hneg _ 0 c r0 hr0
    refine ⟨⟨tl ++ [.close], ?_⟩, ?_⟩
    · show r0.events ++ [Event.close] = _
      rw [htl]
      rfl
    · intro t d hmem
      have hmem1 : Event.setDeadline t d ∈ r0.events ++ [Event.close] := hmem
      rw [List.mem_append] at hmem1
      rcases hmem1 with h | h
      · exact hno t d h
      · simp at h

end DotToDns53
